import Mathlib

/-!
Shallow embedding of the FastAPI to-do service (`src/fastapi-app/main.py`).

The backing store is a single JSON document holding an array of objects.
Stored items are JSON objects; their field values may be loosely typed
(legacy data), so the `completed` value is modelled as a small JSON value
type.  The handlers are translated one by one from the Python source:
`load_todos`, `next_id`, `get_todos`, `create_todo`, `update_todo`,
`patch_todo`, `delete_todo`, `todo_stats`.
-/

namespace TodoApp

/-- A JSON scalar value, as a stored item's `completed` field may hold it.
`jnull` also stands for an absent key: everywhere the code reads the field
it uses `t.get("completed")`, which yields `None` for a missing key, and
`None` and JSON `null` behave identically in every downstream use
(truthiness, identity comparison with a bool). -/
inductive JVal where
  | jnull : JVal
  | jbool (b : Bool) : JVal
  | jint (n : Int) : JVal
  | jstr (s : String) : JVal
deriving DecidableEq, Repr

/-- Python truthiness of the value (`if t.get("completed")`): `None`/`null`
is falsy, a bool is itself, a number is truthy iff nonzero, a string is
truthy iff nonempty. -/
def JVal.truthy : JVal → Bool
  | .jnull => false
  | .jbool b => b
  | .jint n => n != 0
  | .jstr s => s != ""

/-- Python `v is b` for a bool `b` (CPython interns `True`/`False`, and
`json.load` produces those singletons): true exactly when `v` is the very
bool `b`.  A number or string is never `is`-identical to a bool. -/
def JVal.isSameBool : JVal → Bool → Bool
  | .jbool c, b => c == b
  | _, _ => false

/-- A stored item: a JSON object in the persisted array.  `id`, `title` and
`description` model the value of the corresponding key, with `none` for
JSON `null` (for `id`) resp. for an absent key (for `title`/`description`,
which the code only reads through `t.get(k, "")`).  `completed` is the raw
stored value. -/
structure StoredItem where
  id : Option Int
  title : Option String
  description : Option String
  completed : JVal
deriving DecidableEq, Repr

/-- The create/replace request body after `todo.model_dump()`: a dict with
keys `id`, `title`, `description`, `completed`.  The handler itself guards
`if data.get("id") is None`, so the `id` entry may be `None`; rejection of
missing required fields is the request-parsing layer, which the spec
excludes from the core. -/
structure TodoIn where
  id : Option Int
  title : String
  description : String
  completed : Bool
deriving DecidableEq, Repr

/-- The PATCH request body (`TodoPatch`): any subset of the three mutable
fields, `none` meaning the field was not supplied. -/
structure TodoPatch where
  title : Option String
  description : Option String
  completed : Option Bool
deriving DecidableEq, Repr

/-- The result of `/todos/_stats`.  Counts are Python ints. -/
structure Stats where
  total : Int
  completed : Int
  pending : Int
deriving DecidableEq, Repr

/-- The state of the backing file `todo.json`: absent, present but not
valid JSON, or a valid JSON array of items. -/
inductive FileState where
  | absent : FileState
  | invalid : FileState
  | valid (todos : List StoredItem) : FileState
deriving DecidableEq, Repr

/-- `load_todos`: if the file does not exist, `save_todos([])` creates it
and `[]` is returned; if the content does not parse, the
`json.JSONDecodeError` is swallowed and `[]` is returned; otherwise the
parsed array is returned.  The second component is the file state after
the call (the absent case materializes an empty document). -/
def load_todos : FileState → List StoredItem × FileState
  | .absent => ([], .valid [])
  | .invalid => ([], .invalid)
  | .valid todos => (todos, .valid todos)

/-- The collection a caller observes in a file state: what `load_todos`
returns. -/
def collectionOf (fs : FileState) : List StoredItem :=
  (load_todos fs).1

/-- Python `max(l, default=d)`: `d` only when the iterable is empty,
otherwise the maximum of the elements. -/
def pyMax (l : List Int) (d : Int) : Int :=
  match l with
  | [] => d
  | x :: xs => xs.foldl max x

/-- The ids present in a collection: the values `t["id"]` for items where
the key is present and not `None` (the generator in `next_id` filters
exactly these). -/
def presentIds (todos : List StoredItem) : List Int :=
  todos.filterMap (·.id)

/-- `next_id`: `max((t["id"] for t in todos if "id" in t and t["id"] is not
None), default=0) + 1`. -/
def next_id (todos : List StoredItem) : Int :=
  pyMax (presentIds todos) 0 + 1

/-- `create_todo`: dump the body, assign `next_id` when the body id is
`None`, append, save.  Returns the new collection and the stored item
(which is also the response). -/
def create_todo (todo : TodoIn) (todos : List StoredItem) :
    List StoredItem × StoredItem :=
  let assigned : Int :=
    match todo.id with
    | some i => i
    | none => next_id todos
  let data : StoredItem :=
    ⟨some assigned, some todo.title, some todo.description, .jbool todo.completed⟩
  (todos ++ [data], data)

/-- Python `s.lower()`: lowercase character by character (the items under
test are ASCII, where Python and Lean lowercasing agree).  Written as a
structural map over the character list so that it evaluates by `decide`. -/
def lowerStr (s : String) : String :=
  ⟨s.data.map Char.toLower⟩

/-- Whether `needle` occurs as a contiguous run inside `hay`. -/
def listIsInfix (needle : List Char) : List Char → Bool
  | [] => needle.isEmpty
  | c :: cs => needle.isPrefixOf (c :: cs) || listIsInfix needle cs

/-- Python substring test `needle in hay`. -/
def strContains (hay needle : String) : Bool :=
  listIsInfix needle.toList hay.toList

/-- The search predicate of `get_todos` for an already-lowercased term:
`q_low in t.get("title", "").lower() or q_low in t.get("description",
"").lower()`. -/
def matchesQuery (qLow : String) (t : StoredItem) : Bool :=
  strContains (lowerStr (t.title.getD "")) qLow
    || strContains (lowerStr (t.description.getD "")) qLow

/-- The filter stage of `get_todos`: the optional completed filter
(`t.get("completed") is completed`, identity with the bool) followed by
the optional search (`if q:` — skipped for `None` and for the empty
string). -/
def applyFilters (completed : Option Bool) (q : Option String)
    (todos : List StoredItem) : List StoredItem :=
  let t1 :=
    match completed with
    | none => todos
    | some b => todos.filter (fun t => t.completed.isSameBool b)
  match q with
  | none => t1
  | some s => if s = "" then t1 else t1.filter (matchesQuery (lowerStr s))

/-- `get_todos`: load, filter, search, then slice `todos[offset : offset +
limit]`.  `limit` and `offset` arrive through FastAPI `Query` validation
(`1 ≤ limit ≤ 10000`, `0 ≤ offset`), so both are nonnegative and the
Python slice is drop-then-take. -/
def get_todos (completed : Option Bool) (q : Option String)
    (limit offset : Nat) (todos : List StoredItem) : List StoredItem :=
  ((applyFilters completed q todos).drop offset).take limit

/-- `update_todo` (PUT): walk the list, and at the first item with
`t["id"] == todo_id` replace it by the dumped body with `data["id"] =
todo_id`, save, and return the new record.  `none` models the
`HTTPException(404)` raised when the loop finds no match; no save happens
then. -/
def update_todo (todo_id : Int) (body : TodoIn) :
    List StoredItem → Option (List StoredItem × StoredItem)
  | [] => none
  | t :: ts =>
    if t.id = some todo_id then
      let data : StoredItem :=
        ⟨some todo_id, some body.title, some body.description, .jbool body.completed⟩
      some (data :: ts, data)
    else
      match update_todo todo_id body ts with
      | none => none
      | some (ts2, r) => some (t :: ts2, r)

/-- The in-place mutation of `patch_todo`: overwrite exactly the supplied
fields, leave the rest of the dict (including `id`) untouched. -/
def applyPatch (p : TodoPatch) (t : StoredItem) : StoredItem :=
  { t with
    title := match p.title with
      | some s => some s
      | none => t.title
    description := match p.description with
      | some s => some s
      | none => t.description
    completed := match p.completed with
      | some b => .jbool b
      | none => t.completed }

/-- `patch_todo` (PATCH): walk the list, mutate the first item with
`t["id"] == todo_id` in place, save, return it.  `none` models the
`HTTPException(404)` when no item matches; no save happens then. -/
def patch_todo (todo_id : Int) (p : TodoPatch) :
    List StoredItem → Option (List StoredItem × StoredItem)
  | [] => none
  | t :: ts =>
    if t.id = some todo_id then
      let t2 := applyPatch p t
      some (t2 :: ts, t2)
    else
      match patch_todo todo_id p ts with
      | none => none
      | some (ts2, r) => some (t :: ts2, r)

/-- `delete_todo`: keep every item with `t.get("id") != todo_id` (an
absent or `null` id never equals an int, so such items are kept), save,
and report success unconditionally. -/
def delete_todo (todo_id : Int) (todos : List StoredItem) : List StoredItem :=
  todos.filter (fun t => t.id ≠ some todo_id)

/-- `todo_stats`: `total = len(todos)`, `done = sum(1 for t in todos if
t.get("completed"))` — Python truthiness of the raw stored value — and
`pending = total - done`. -/
def todo_stats (todos : List StoredItem) : Stats :=
  let total : Int := todos.length
  let done : Int := todos.countP (fun t => t.completed.truthy)
  ⟨total, done, total - done⟩

/-- The PUT handler over the backing file: acquire the lock, load, update,
save on success.  On the 404 path nothing is written beyond what
`load_todos` itself did (materializing an empty file when absent). -/
def put_handler (todo_id : Int) (body : TodoIn) (fs : FileState) :
    FileState × Option StoredItem :=
  let (todos, fs1) := load_todos fs
  match update_todo todo_id body todos with
  | none => (fs1, none)
  | some (todos2, r) => (.valid todos2, some r)

/-- The PATCH handler over the backing file, analogous to `put_handler`. -/
def patch_handler (todo_id : Int) (p : TodoPatch) (fs : FileState) :
    FileState × Option StoredItem :=
  let (todos, fs1) := load_todos fs
  match patch_todo todo_id p todos with
  | none => (fs1, none)
  | some (todos2, r) => (.valid todos2, some r)

/-- No two items of the collection share a present id. -/
def uniqueIds (todos : List StoredItem) : Prop :=
  (presentIds todos).Nodup

instance : DecidablePred uniqueIds := fun todos =>
  inferInstanceAs (Decidable (presentIds todos).Nodup)

/-- Modelled from the spec: the truthy-string/number normalization rule
for `completed` that section 3 and 4.1 describe ("true", "1", "yes", "y",
"t" case-insensitive → true; everything else non-boolean → false).  The
source's `load_todos` contains no such step; this definition exists only
to compare the spec's words with the code. -/
def normalizeCompleted (v : JVal) : Bool :=
  match v with
  | .jnull => false
  | .jbool b => b
  | .jint n => n == 1
  | .jstr s => ["true", "1", "yes", "y", "t"].contains (lowerStr s)

/-- Modelled from the spec: the list pipeline of section 4.3, with the
completed filter comparing the *normalized* `completed` against the
supplied bool, the search applied whenever a term is supplied, and the
slice written as `items[offset : offset+limit]` (take to the stop index,
then drop to the start index). -/
def get_todosSpec (completed : Option Bool) (q : Option String)
    (limit offset : Nat) (todos : List StoredItem) : List StoredItem :=
  let t1 :=
    match completed with
    | none => todos
    | some b => todos.filter (fun t => normalizeCompleted t.completed == b)
  let t2 :=
    match q with
    | none => t1
    | some s => t1.filter (matchesQuery (lowerStr s))
  (t2.take (offset + limit)).drop offset

/-- The amended filter stage: the completed filter keeps items whose raw
stored `completed` is exactly the bool equal to the filter (no
normalization), and the search filter applies whenever a term is supplied
(also for the empty term, which matches everything). -/
def applyFiltersAmended (completed : Option Bool) (q : Option String)
    (todos : List StoredItem) : List StoredItem :=
  let t1 :=
    match completed with
    | none => todos
    | some b => todos.filter (fun t => t.completed == JVal.jbool b)
  match q with
  | none => t1
  | some s => t1.filter (matchesQuery (lowerStr s))

/-- The amended list pipeline: amended filters, then the slice written as
`items[offset : offset+limit]` (take to the stop index, then drop to the
start index). -/
def get_todosAmended (completed : Option Bool) (q : Option String)
    (limit offset : Nat) (todos : List StoredItem) : List StoredItem :=
  ((applyFiltersAmended completed q todos).take (offset + limit)).drop offset

/-- Modelled from the spec: the stats record of section 4.4, counting the
items whose `completed` equals `true`. -/
def todo_statsSpec (todos : List StoredItem) : Stats :=
  let total : Int := todos.length
  let done : Int := todos.countP (fun t => t.completed == JVal.jbool true)
  ⟨total, done, total - done⟩

/-! ### Helper lemmas -/

/-- The record a successful PUT stores: body fields with the path id. -/
def putData (todo_id : Int) (body : TodoIn) : StoredItem :=
  ⟨some todo_id, some body.title, some body.description, .jbool body.completed⟩

theorem le_foldl_max (ys : List Int) (a : Int) : a ≤ ys.foldl max a := by
  induction ys generalizing a with
  | nil => exact le_refl a
  | cons y ys ih => exact le_trans (le_max_left a y) (ih (max a y))

theorem mem_le_foldl_max (ys : List Int) (a x : Int) (hx : x ∈ ys) :
    x ≤ ys.foldl max a := by
  induction ys generalizing a with
  | nil => cases hx
  | cons y ys ih =>
    rcases List.mem_cons.mp hx with h | h
    · subst h
      exact le_trans (le_max_right a x) (le_foldl_max ys (max a x))
    · exact ih (max a y) h

theorem le_pyMax (l : List Int) (d x : Int) (hx : x ∈ l) : x ≤ pyMax l d := by
  cases l with
  | nil => cases hx
  | cons y ys =>
    rcases List.mem_cons.mp hx with h | h
    · subst h
      exact le_foldl_max ys x
    · exact mem_le_foldl_max ys y x h

theorem mem_presentIds {i : Int} {l : List StoredItem} :
    i ∈ presentIds l ↔ ∃ t ∈ l, t.id = some i := by
  simp [presentIds, List.mem_filterMap]

theorem presentIds_append (l₁ l₂ : List StoredItem) :
    presentIds (l₁ ++ l₂) = presentIds l₁ ++ presentIds l₂ := by
  simp [presentIds]

theorem next_id_not_mem (todos : List StoredItem) :
    next_id todos ∉ presentIds todos := by
  intro hmem
  have h := le_pyMax (presentIds todos) 0 _ hmem
  simp only [next_id] at h
  omega

theorem presentIds_middle (pre post : List StoredItem) (x y : StoredItem)
    (h : x.id = y.id) :
    presentIds (pre ++ x :: post) = presentIds (pre ++ y :: post) := by
  simp [presentIds, List.filterMap_cons, h]

theorem update_todo_none_of_no_match (i : Int) (b : TodoIn) :
    ∀ l : List StoredItem, (∀ t ∈ l, t.id ≠ some i) → update_todo i b l = none
  | [], _ => rfl
  | t :: ts, h => by
    have ht : t.id ≠ some i := h t (List.mem_cons_self t ts)
    have hts := update_todo_none_of_no_match i b ts
      (fun u hu => h u (List.mem_cons_of_mem t hu))
    simp [update_todo, ht, hts]

theorem update_todo_found (i : Int) (b : TodoIn) :
    ∀ l : List StoredItem, (∃ t ∈ l, t.id = some i) →
      ∃ pre t post, l = pre ++ t :: post ∧ (∀ u ∈ pre, u.id ≠ some i) ∧
        t.id = some i ∧
        update_todo i b l = some (pre ++ putData i b :: post, putData i b)
  | [], h => absurd h (by simp)
  | t :: ts, h => by
    by_cases ht : t.id = some i
    · exact ⟨[], t, ts, rfl, by simp, ht, by simp [update_todo, ht, putData]⟩
    · have hts : ∃ u ∈ ts, u.id = some i := by
        rcases h with ⟨u, hu, hid⟩
        rcases List.mem_cons.mp hu with rfl | hmem
        · exact absurd hid ht
        · exact ⟨u, hmem, hid⟩
      obtain ⟨pre, u, post, hdec, hpre, hid, heq⟩ := update_todo_found i b ts hts
      refine ⟨t :: pre, u, post, by simp [hdec], ?_, hid, ?_⟩
      · intro v hv
        rcases List.mem_cons.mp hv with rfl | hmem
        · exact ht
        · exact hpre v hmem
      · simp [update_todo, ht, heq]

theorem update_todo_eq_none_iff (i : Int) (b : TodoIn) (l : List StoredItem) :
    update_todo i b l = none ↔ ∀ t ∈ l, t.id ≠ some i := by
  constructor
  · intro hnone
    by_contra hall
    push_neg at hall
    obtain ⟨_, _, _, _, _, _, heq⟩ := update_todo_found i b l hall
    rw [heq] at hnone
    cases hnone
  · exact update_todo_none_of_no_match i b l

theorem patch_todo_none_of_no_match (i : Int) (p : TodoPatch) :
    ∀ l : List StoredItem, (∀ t ∈ l, t.id ≠ some i) → patch_todo i p l = none
  | [], _ => rfl
  | t :: ts, h => by
    have ht : t.id ≠ some i := h t (List.mem_cons_self t ts)
    have hts := patch_todo_none_of_no_match i p ts
      (fun u hu => h u (List.mem_cons_of_mem t hu))
    simp [patch_todo, ht, hts]

theorem patch_todo_found (i : Int) (p : TodoPatch) :
    ∀ l : List StoredItem, (∃ t ∈ l, t.id = some i) →
      ∃ pre t post, l = pre ++ t :: post ∧ (∀ u ∈ pre, u.id ≠ some i) ∧
        t.id = some i ∧
        patch_todo i p l = some (pre ++ applyPatch p t :: post, applyPatch p t)
  | [], h => absurd h (by simp)
  | t :: ts, h => by
    by_cases ht : t.id = some i
    · exact ⟨[], t, ts, rfl, by simp, ht, by simp [patch_todo, ht]⟩
    · have hts : ∃ u ∈ ts, u.id = some i := by
        rcases h with ⟨u, hu, hid⟩
        rcases List.mem_cons.mp hu with rfl | hmem
        · exact absurd hid ht
        · exact ⟨u, hmem, hid⟩
      obtain ⟨pre, u, post, hdec, hpre, hid, heq⟩ := patch_todo_found i p ts hts
      refine ⟨t :: pre, u, post, by simp [hdec], ?_, hid, ?_⟩
      · intro v hv
        rcases List.mem_cons.mp hv with rfl | hmem
        · exact ht
        · exact hpre v hmem
      · simp [patch_todo, ht, heq]

theorem patch_todo_eq_none_iff (i : Int) (p : TodoPatch) (l : List StoredItem) :
    patch_todo i p l = none ↔ ∀ t ∈ l, t.id ≠ some i := by
  constructor
  · intro hnone
    by_contra hall
    push_neg at hall
    obtain ⟨_, _, _, _, _, _, heq⟩ := patch_todo_found i p l hall
    rw [heq] at hnone
    cases hnone
  · exact patch_todo_none_of_no_match i p l

theorem applyPatch_id (p : TodoPatch) (t : StoredItem) :
    (applyPatch p t).id = t.id := rfl

theorem collectionOf_load_snd (fs : FileState) :
    collectionOf (load_todos fs).2 = collectionOf fs := by
  cases fs <;> rfl

theorem uniqueIds_delete (i : Int) (l : List StoredItem) (h : uniqueIds l) :
    uniqueIds (delete_todo i l) :=
  List.Nodup.sublist (List.Sublist.filterMap _ (List.filter_sublist l)) h

theorem uniqueIds_update (i : Int) (b : TodoIn) (l l' : List StoredItem)
    (r : StoredItem) (h : uniqueIds l) (hu : update_todo i b l = some (l', r)) :
    uniqueIds l' := by
  have hex : ∃ t ∈ l, t.id = some i := by
    by_contra hall
    push_neg at hall
    rw [update_todo_none_of_no_match i b l hall] at hu
    cases hu
  obtain ⟨pre, t, post, hdec, _, hid, heq⟩ := update_todo_found i b l hex
  rw [heq] at hu
  obtain ⟨rfl, rfl⟩ : pre ++ putData i b :: post = l' ∧ putData i b = r := by
    injection hu with h1
    injection h1 with h2 h3
    exact ⟨h2, h3⟩
  have hids : presentIds (pre ++ putData i b :: post) = presentIds l := by
    rw [hdec]
    exact presentIds_middle pre post (putData i b) t (by simp [putData, hid])
  unfold uniqueIds
  rw [hids]
  exact h

theorem uniqueIds_patch (i : Int) (p : TodoPatch) (l l' : List StoredItem)
    (r : StoredItem) (h : uniqueIds l) (hu : patch_todo i p l = some (l', r)) :
    uniqueIds l' := by
  have hex : ∃ t ∈ l, t.id = some i := by
    by_contra hall
    push_neg at hall
    rw [patch_todo_none_of_no_match i p l hall] at hu
    cases hu
  obtain ⟨pre, t, post, hdec, _, hid, heq⟩ := patch_todo_found i p l hex
  rw [heq] at hu
  obtain ⟨rfl, rfl⟩ : pre ++ applyPatch p t :: post = l' ∧ applyPatch p t = r := by
    injection hu with h1
    injection h1 with h2 h3
    exact ⟨h2, h3⟩
  have hids : presentIds (pre ++ applyPatch p t :: post) = presentIds l := by
    rw [hdec]
    exact presentIds_middle pre post (applyPatch p t) t (applyPatch_id p t)
  unfold uniqueIds
  rw [hids]
  exact h

theorem uniqueIds_append_fresh (l : List StoredItem) (d : StoredItem) (a : Int)
    (hd : d.id = some a) (h : uniqueIds l) (ha : a ∉ presentIds l) :
    uniqueIds (l ++ [d]) := by
  unfold uniqueIds
  rw [presentIds_append]
  refine List.Nodup.append h ?_ ?_
  · simp [presentIds, List.filterMap_cons, hd]
  · intro x hx hx'
    have : x = a := by
      simpa [presentIds, List.filterMap_cons, hd] using hx'
    exact ha (this ▸ hx)

theorem uniqueIds_create (body : TodoIn) (l : List StoredItem) (h : uniqueIds l)
    (hfresh : ∀ j : Int, body.id = some j → j ∉ presentIds l) :
    uniqueIds (create_todo body l).1 := by
  cases hb : body.id with
  | none =>
    refine uniqueIds_append_fresh l _ (next_id l) ?_ h (next_id_not_mem l)
    simp [create_todo, hb]
  | some j =>
    refine uniqueIds_append_fresh l _ j ?_ h (hfresh j hb)
    simp [create_todo, hb]

theorem countP_id_eq_zero (i : Int) (l : List StoredItem)
    (h : i ∉ presentIds l) :
    l.countP (fun t => t.id == some i) = 0 := by
  rw [List.countP_eq_zero]
  intro t ht hmatch
  exact h (mem_presentIds.mpr ⟨t, ht, by simpa using hmatch⟩)

theorem countP_id_le_one (i : Int) (l : List StoredItem) (h : uniqueIds l) :
    l.countP (fun t => t.id == some i) ≤ 1 := by
  induction l with
  | nil => simp
  | cons t ts ih =>
    rw [List.countP_cons]
    by_cases hm : t.id = some i
    · have hnodup : (presentIds (t :: ts)).Nodup := h
      have hids : presentIds (t :: ts) = i :: presentIds ts := by
        simp [presentIds, List.filterMap_cons, hm]
      rw [hids, List.nodup_cons] at hnodup
      have h0 := countP_id_eq_zero i ts hnodup.1
      simp [h0, hm]
    · have hts : uniqueIds ts := by
        unfold uniqueIds at h ⊢
        cases hid : t.id with
        | none => simpa [presentIds, List.filterMap_cons, hid] using h
        | some j =>
          have : presentIds (t :: ts) = j :: presentIds ts := by
            simp [presentIds, List.filterMap_cons, hid]
          rw [this, List.nodup_cons] at h
          exact h.2
      simpa [hm] using ih hts

theorem delete_length_eq (i : Int) (l : List StoredItem) :
    (delete_todo i l).length + l.countP (fun t => t.id == some i) = l.length := by
  induction l with
  | nil => rfl
  | cons t ts ih =>
    by_cases hm : t.id = some i
    · have h1 : delete_todo i (t :: ts) = delete_todo i ts := by
        simp [delete_todo, List.filter_cons, hm]
      have h2 : (t :: ts).countP (fun u => u.id == some i)
          = ts.countP (fun u => u.id == some i) + 1 := by
        simp [List.countP_cons, hm]
      rw [h1, h2, List.length_cons]
      omega
    · have h1 : delete_todo i (t :: ts) = t :: delete_todo i ts := by
        simp [delete_todo, List.filter_cons, hm]
      have h2 : (t :: ts).countP (fun u => u.id == some i)
          = ts.countP (fun u => u.id == some i) := by
        simp [List.countP_cons, hm]
      rw [h1, h2, List.length_cons, List.length_cons]
      omega

theorem listIsInfix_nil (l : List Char) : listIsInfix [] l = true := by
  cases l <;> simp [listIsInfix, List.isPrefixOf]

theorem strContains_empty (h : String) : strContains h "" = true := by
  simpa [strContains] using listIsInfix_nil h.toList

theorem matchesQuery_empty (t : StoredItem) : matchesQuery "" t = true := by
  simp [matchesQuery, strContains_empty]

theorem lowerStr_empty : lowerStr "" = "" := rfl

theorem isSameBool_eq_beq (v : JVal) (b : Bool) :
    v.isSameBool b = (v == JVal.jbool b) := by
  cases v <;> simp [JVal.isSameBool]

theorem update_todo_ignores_body_id (i : Int) (b : TodoIn) (j : Option Int) :
    ∀ l : List StoredItem,
      update_todo i ⟨j, b.title, b.description, b.completed⟩ l = update_todo i b l
  | [] => rfl
  | t :: ts => by
    by_cases ht : t.id = some i
    · simp [update_todo, ht]
    · simp [update_todo, ht, update_todo_ignores_body_id i b j ts]

theorem put_handler_eq (i : Int) (b : TodoIn) (fs : FileState) :
    put_handler i b fs
      = match update_todo i b (collectionOf fs) with
        | none => ((load_todos fs).2, none)
        | some (l2, r) => (.valid l2, some r) := by
  cases fs <;> rfl

theorem patch_handler_eq (i : Int) (p : TodoPatch) (fs : FileState) :
    patch_handler i p fs
      = match patch_todo i p (collectionOf fs) with
        | none => ((load_todos fs).2, none)
        | some (l2, r) => (.valid l2, some r) := by
  cases fs <;> rfl

/-! ### Claim theorems -/

/-- C10: load never surfaces an error: an absent backing file yields the
empty collection, and an unparsable backing file is swallowed and also
yields the empty collection. -/
theorem C10_load_recovery :
    (load_todos .absent).1 = [] ∧ (load_todos .invalid).1 = []
      ∧ collectionOf FileState.absent = [] ∧ collectionOf FileState.invalid = [] :=
  ⟨rfl, rfl, rfl, rfl⟩

/-- C3 counterexample: the claim says load turns a stored `completed` of
`"true"` into the boolean `true`; in the code `load_todos` returns the
parsed items verbatim, so the string survives unchanged (while the spec's
normalization rule would map it to `true`). -/
theorem C3_counterexample :
    (load_todos (.valid [⟨some 1, some "a", some "b", .jstr "true"⟩])).1
        = [⟨some 1, some "a", some "b", .jstr "true"⟩]
      ∧ JVal.jstr "true" ≠ JVal.jbool true
      ∧ normalizeCompleted (.jstr "true") = true :=
  ⟨rfl, by decide, by decide⟩

/-- C3 amended: load performs no normalization at all: a valid stored
collection is returned verbatim (so non-boolean `completed` values are
observed downstream), and loading is stable: loading the post-load file
state yields the same collection. -/
theorem C3_load_verbatim : ∀ (l : List StoredItem) (fs : FileState),
    (load_todos (.valid l)).1 = l
      ∧ (load_todos (load_todos fs).2).1 = (load_todos fs).1 := by
  intro l fs
  refine ⟨rfl, ?_⟩
  cases fs <;> rfl

/-- C4 counterexample: on a collection holding two items with id 1, delete
of id 1 removes both items, not exactly one. -/
theorem C4_counterexample :
    delete_todo 1 [⟨some 1, some "a", some "b", .jbool false⟩,
        ⟨some 1, some "c", some "d", .jbool true⟩] = []
      ∧ ([⟨some 1, some "a", some "b", .jbool false⟩,
          ⟨some 1, some "c", some "d", .jbool true⟩] : List StoredItem).length
          - (delete_todo 1 [⟨some 1, some "a", some "b", .jbool false⟩,
              ⟨some 1, some "c", some "d", .jbool true⟩]).length = 2 := by
  decide

/-- C4 amended: delete removes every item matching the path id (so at most
one exactly when ids are unique), always reports success, repeated deletes
of the same id are idempotent, and the collection is unchanged when no
item matches. -/
theorem C4_delete_policy : ∀ (i : Int) (l : List StoredItem),
    (∀ t ∈ delete_todo i l, t.id ≠ some i)
      ∧ delete_todo i (delete_todo i l) = delete_todo i l
      ∧ ((∀ t ∈ l, t.id ≠ some i) → delete_todo i l = l)
      ∧ (uniqueIds l → l.length ≤ (delete_todo i l).length + 1) := by
  intro i l
  refine ⟨?_, ?_, ?_, ?_⟩
  · intro t ht
    have h := List.mem_filter.mp ht
    simpa using h.2
  · simp [delete_todo, List.filter_filter]
  · intro h
    rw [delete_todo, List.filter_eq_self]
    intro a ha
    simpa using h a ha
  · intro h
    have h1 := delete_length_eq i l
    have h2 := countP_id_le_one i l h
    omega

/-- C4 witness: instantiating the amended delete theorem on a concrete
one-item collection and a non-matching id. -/
theorem C4_witness :
    delete_todo 2 [⟨some 1, some "a", some "b", .jbool false⟩]
        = [⟨some 1, some "a", some "b", .jbool false⟩]
      ∧ ([⟨some 1, some "a", some "b", .jbool false⟩] : List StoredItem).length
          ≤ (delete_todo 2 [⟨some 1, some "a", some "b", .jbool false⟩]).length + 1 :=
  ⟨(C4_delete_policy 2 [⟨some 1, some "a", some "b", .jbool false⟩]).2.2.1
      (by decide),
    (C4_delete_policy 2 [⟨some 1, some "a", some "b", .jbool false⟩]).2.2.2
      (by decide)⟩

/-- C6 counterexample: stats counts an item as completed whenever its raw
`completed` value is truthy; on an item whose stored `completed` is the
number 5 the code reports one completed item while the claim's
equals-`true` counting reports zero. -/
theorem C6_counterexample :
    todo_stats [⟨some 1, some "a", some "b", .jint 5⟩]
        ≠ todo_statsSpec [⟨some 1, some "a", some "b", .jint 5⟩]
      ∧ todo_stats [⟨some 1, some "a", some "b", .jint 5⟩] = ⟨1, 1, 0⟩
      ∧ todo_statsSpec [⟨some 1, some "a", some "b", .jint 5⟩] = ⟨1, 0, 1⟩ := by
  decide

/-- C6 amended: stats always succeeds and returns total = item count,
completed = count of items whose raw `completed` value is truthy, pending
= total − completed; it is zero-valued on the empty collection, and on
collections whose `completed` values are all strict booleans the truthy
count coincides with the claim's equals-`true` count. -/
theorem C6_stats : ∀ todos : List StoredItem,
    (todo_stats todos).total = todos.length
      ∧ (todo_stats todos).completed
          = todos.countP (fun t => t.completed.truthy)
      ∧ (todo_stats todos).pending
          = (todo_stats todos).total - (todo_stats todos).completed
      ∧ todo_stats [] = ⟨0, 0, 0⟩
      ∧ ((∀ t ∈ todos, ∃ b, t.completed = .jbool b) →
          todo_stats todos = todo_statsSpec todos) := by
  intro todos
  refine ⟨rfl, rfl, rfl, rfl, ?_⟩
  intro h
  have hcount : todos.countP (fun t => t.completed.truthy)
      = todos.countP (fun t => t.completed == JVal.jbool true) := by
    apply List.countP_congr
    intro t ht
    obtain ⟨b, hb⟩ := h t ht
    cases b <;> simp [hb, JVal.truthy]
  simp [todo_stats, todo_statsSpec, hcount]

/-- C6 witness: instantiating the amended stats theorem on a concrete
boolean-valued one-item collection. -/
theorem C6_witness :
    todo_stats [⟨some 1, some "a", some "b", .jbool true⟩]
      = todo_statsSpec [⟨some 1, some "a", some "b", .jbool true⟩] :=
  (C6_stats [⟨some 1, some "a", some "b", .jbool true⟩]).2.2.2.2 (by decide)

/-- C1 counterexample: a create with no body id on the empty collection is
assigned id 1; after deleting that item the next such create is assigned
id 1 again (not 2): `next_id` is recomputed from the surviving items, so
ids are reused after deletion. -/
theorem C1_counterexample :
    (create_todo ⟨none, "a", "b", false⟩ []).2.id = some 1
      ∧ delete_todo 1 (create_todo ⟨none, "a", "b", false⟩ []).1 = []
      ∧ (create_todo ⟨none, "a", "b", false⟩
          (delete_todo 1 (create_todo ⟨none, "a", "b", false⟩ []).1)).2.id = some 1
      ∧ (create_todo ⟨none, "a", "b", false⟩
          (delete_todo 1 (create_todo ⟨none, "a", "b", false⟩ []).1)).2.id
          ≠ some 2 := by
  decide

/-- C1 amended: a server-assigned id is `next_id`, i.e. one more than the
maximum id currently present, so it strictly exceeds every id present in
the collection at creation time (and is unique there); but ids of deleted
items are reused (see the counterexample), since `next_id` only looks at
the surviving items. -/
theorem C1_next_id_assignment :
    ∀ (ti d : String) (c : Bool) (todos : List StoredItem),
    (create_todo ⟨none, ti, d, c⟩ todos).2.id = some (next_id todos)
      ∧ ∀ j ∈ presentIds todos, j < next_id todos := by
  intro ti d c todos
  refine ⟨rfl, ?_⟩
  intro j hj
  have h := le_pyMax (presentIds todos) 0 j hj
  simp only [next_id]
  omega

/-- C1 witness: on a collection holding id 3, the assigned id is
`next_id`, which exceeds the present id 3. -/
theorem C1_witness :
    (create_todo ⟨none, "a", "b", false⟩
        [⟨some 3, some "x", some "y", .jbool false⟩]).2.id
        = some (next_id [⟨some 3, some "x", some "y", .jbool false⟩])
      ∧ (3 : Int) < next_id [⟨some 3, some "x", some "y", .jbool false⟩] :=
  ⟨(C1_next_id_assignment "a" "b" false
      [⟨some 3, some "x", some "y", .jbool false⟩]).1,
    (C1_next_id_assignment "a" "b" false
      [⟨some 3, some "x", some "y", .jbool false⟩]).2 3 (by decide)⟩

/-- C2 counterexample: `create_todo` performs no duplicate check, so two
creates whose bodies both carry id 1 leave the collection with two items
of id 1 — uniqueness is violated after a successful write. -/
theorem C2_counterexample :
    presentIds (create_todo ⟨some 1, "c", "d", true⟩
        (create_todo ⟨some 1, "a", "b", false⟩ []).1).1 = [1, 1]
      ∧ ¬ uniqueIds (create_todo ⟨some 1, "c", "d", true⟩
          (create_todo ⟨some 1, "a", "b", false⟩ []).1).1 := by
  refine ⟨by decide, ?_⟩
  intro h
  exact absurd h (by decide)

/-- C2 amended: id uniqueness is preserved by delete, replace and partial
update, and by a create whose body id is absent or not already present in
the collection; a create supplying an already-present id violates it (see
the counterexample). -/
theorem C2_uniqueness :
    ∀ (i : Int) (b : TodoIn) (p : TodoPatch) (l l2 l3 : List StoredItem)
      (r r2 : StoredItem), uniqueIds l →
    uniqueIds (delete_todo i l)
      ∧ (update_todo i b l = some (l2, r) → uniqueIds l2)
      ∧ (patch_todo i p l = some (l3, r2) → uniqueIds l3)
      ∧ ((∀ j : Int, b.id = some j → j ∉ presentIds l) →
          uniqueIds (create_todo b l).1) := by
  intro i b p l l2 l3 r r2 h
  exact ⟨uniqueIds_delete i l h,
    fun hu => uniqueIds_update i b l l2 r h hu,
    fun hu => uniqueIds_patch i p l l3 r2 h hu,
    fun hf => uniqueIds_create b l h hf⟩

/-- C2 witness: on a concrete one-item collection, uniqueness survives a
delete, a replace, a patch and a create with a fresh body id. -/
theorem C2_witness :
    uniqueIds (delete_todo 1 [⟨some 1, some "a", some "b", .jbool false⟩])
      ∧ uniqueIds [(⟨some 1, some "t", some "d", .jbool true⟩ : StoredItem)]
      ∧ uniqueIds [(⟨some 1, some "a", some "b", .jbool true⟩ : StoredItem)]
      ∧ uniqueIds (create_todo ⟨some 9, "t", "d", true⟩
          [⟨some 1, some "a", some "b", .jbool false⟩]).1 := by
  have h := C2_uniqueness 1 ⟨some 9, "t", "d", true⟩ ⟨none, none, some true⟩
    [⟨some 1, some "a", some "b", .jbool false⟩]
    [⟨some 1, some "t", some "d", .jbool true⟩]
    [⟨some 1, some "a", some "b", .jbool true⟩]
    ⟨some 1, some "t", some "d", .jbool true⟩
    ⟨some 1, some "a", some "b", .jbool true⟩
    (by decide)
  refine ⟨h.1, h.2.1 (by decide), h.2.2.1 (by decide), h.2.2.2 ?_⟩
  intro j hj
  have hj9 : j = 9 := by
    simpa using hj.symm
  subst hj9
  decide

/-- C7: when the collection holds an item with the path id, PUT stores and
returns the body with the id forced to the path id — the body's own id is
ignored entirely — and all other fields taken verbatim from the body. -/
theorem C7_put_forces_path_id :
    ∀ (i : Int) (b : TodoIn) (l : List StoredItem),
    (∃ t ∈ l, t.id = some i) →
    ∃ l2, update_todo i b l = some (l2, putData i b)
      ∧ (putData i b).id = some i
      ∧ (putData i b).title = some b.title
      ∧ (putData i b).description = some b.description
      ∧ (putData i b).completed = .jbool b.completed
      ∧ putData i b ∈ l2
      ∧ ∀ j : Option Int,
          update_todo i ⟨j, b.title, b.description, b.completed⟩ l
            = update_todo i b l := by
  intro i b l h
  obtain ⟨pre, t, post, hdec, hpre, hid, heq⟩ := update_todo_found i b l h
  refine ⟨pre ++ putData i b :: post, heq, rfl, rfl, rfl, rfl, ?_, ?_⟩
  · exact List.mem_append.mpr (Or.inr (List.mem_cons_self _ _))
  · intro j
    exact update_todo_ignores_body_id i b j l

/-- C7 witness: `PUT /todos/10` with body id 999 stores and returns an
item with id 10 (the spec's own example). -/
theorem C7_witness :
    ∃ l2, update_todo 10 ⟨some 999, "AA", "BB", true⟩
        [⟨some 10, some "A", some "B", .jbool false⟩]
        = some (l2, putData 10 ⟨some 999, "AA", "BB", true⟩)
      ∧ (putData 10 ⟨some 999, "AA", "BB", true⟩).id = some 10
      ∧ putData 10 ⟨some 999, "AA", "BB", true⟩ ∈ l2 := by
  obtain ⟨l2, h1, h2, _, _, _, h6, _⟩ :=
    C7_put_forces_path_id 10 ⟨some 999, "AA", "BB", true⟩
      [⟨some 10, some "A", some "B", .jbool false⟩]
      ⟨⟨some 10, some "A", some "B", .jbool false⟩, by decide, by decide⟩
  exact ⟨l2, h1, h2, h6⟩

/-- C8: PUT and PATCH respond 404 exactly when no stored item carries the
path id, and on that failure path nothing is saved: the stored collection
is unchanged. -/
theorem C8_not_found :
    ∀ (i : Int) (b : TodoIn) (p : TodoPatch) (fs : FileState),
    ((put_handler i b fs).2 = none ↔ ∀ t ∈ collectionOf fs, t.id ≠ some i)
      ∧ ((patch_handler i p fs).2 = none ↔ ∀ t ∈ collectionOf fs, t.id ≠ some i)
      ∧ ((put_handler i b fs).2 = none →
          collectionOf (put_handler i b fs).1 = collectionOf fs)
      ∧ ((patch_handler i p fs).2 = none →
          collectionOf (patch_handler i p fs).1 = collectionOf fs) := by
  intro i b p fs
  have hput := put_handler_eq i b fs
  have hpatch := patch_handler_eq i p fs
  refine ⟨?_, ?_, ?_, ?_⟩
  · rw [hput]
    cases hu : update_todo i b (collectionOf fs) with
    | none =>
      simpa using (update_todo_eq_none_iff i b (collectionOf fs)).mp hu
    | some v =>
      obtain ⟨l2, r⟩ := v
      simp only []
      constructor
      · intro habs
        cases habs
      · intro hall
        have hn := update_todo_none_of_no_match i b (collectionOf fs) hall
        rw [hu] at hn
        cases hn
  · rw [hpatch]
    cases hu : patch_todo i p (collectionOf fs) with
    | none =>
      simpa using (patch_todo_eq_none_iff i p (collectionOf fs)).mp hu
    | some v =>
      obtain ⟨l2, r⟩ := v
      simp only []
      constructor
      · intro habs
        cases habs
      · intro hall
        have hn := patch_todo_none_of_no_match i p (collectionOf fs) hall
        rw [hu] at hn
        cases hn
  · rw [hput]
    cases hu : update_todo i b (collectionOf fs) with
    | none =>
      intro _
      exact collectionOf_load_snd fs
    | some v =>
      obtain ⟨l2, r⟩ := v
      intro habs
      cases habs
  · rw [hpatch]
    cases hu : patch_todo i p (collectionOf fs) with
    | none =>
      intro _
      exact collectionOf_load_snd fs
    | some v =>
      obtain ⟨l2, r⟩ := v
      intro habs
      cases habs

/-- C9: when PATCH succeeds it rewrites exactly the first item carrying
the path id, changing only the supplied fields; the item's id, its unset
fields, and every other item (before and after it) are unchanged. -/
theorem C9_patch_frame :
    ∀ (i : Int) (p : TodoPatch) (l l2 : List StoredItem) (r : StoredItem),
    patch_todo i p l = some (l2, r) →
    ∃ pre t post, l = pre ++ t :: post
      ∧ (∀ u ∈ pre, u.id ≠ some i)
      ∧ t.id = some i
      ∧ l2 = pre ++ r :: post
      ∧ r = applyPatch p t
      ∧ r.id = t.id
      ∧ (p.title = none → r.title = t.title)
      ∧ (∀ s, p.title = some s → r.title = some s)
      ∧ (p.description = none → r.description = t.description)
      ∧ (∀ s, p.description = some s → r.description = some s)
      ∧ (p.completed = none → r.completed = t.completed)
      ∧ (∀ c, p.completed = some c → r.completed = .jbool c) := by
  intro i p l l2 r h
  have hex : ∃ t ∈ l, t.id = some i := by
    by_contra hall
    push_neg at hall
    rw [patch_todo_none_of_no_match i p l hall] at h
    cases h
  obtain ⟨pre, t, post, hdec, hpre, hid, heq⟩ := patch_todo_found i p l hex
  rw [heq] at h
  injection h with h1
  injection h1 with hl hr
  subst hr
  refine ⟨pre, t, post, hdec, hpre, hid, hl.symm, rfl,
    applyPatch_id p t, ?_, ?_, ?_, ?_, ?_, ?_⟩
  · intro hn
    simp [applyPatch, hn]
  · intro s hs
    simp [applyPatch, hs]
  · intro hn
    simp [applyPatch, hn]
  · intro s hs
    simp [applyPatch, hs]
  · intro hn
    simp [applyPatch, hn]
  · intro c hc
    simp [applyPatch, hc]

/-- C8 witness: on a one-item collection holding id 1, PUT and PATCH for
id 2 report 404 and leave the stored collection unchanged. -/
theorem C8_witness :
    (put_handler 2 ⟨none, "x", "y", false⟩
        (.valid [⟨some 1, some "a", some "b", .jbool false⟩])).2 = none
      ∧ collectionOf (put_handler 2 ⟨none, "x", "y", false⟩
          (.valid [⟨some 1, some "a", some "b", .jbool false⟩])).1
        = collectionOf (.valid [⟨some 1, some "a", some "b", .jbool false⟩])
      ∧ (patch_handler 2 ⟨none, none, some true⟩
          (.valid [⟨some 1, some "a", some "b", .jbool false⟩])).2 = none := by
  have h := C8_not_found 2 ⟨none, "x", "y", false⟩ ⟨none, none, some true⟩
    (.valid [⟨some 1, some "a", some "b", .jbool false⟩])
  have hput := h.1.mpr (by decide)
  have hpatch := h.2.1.mpr (by decide)
  exact ⟨hput, h.2.2.1 hput, hpatch⟩

/-- C5 counterexample: the claim filters on the *normalized* `completed`;
the code compares the raw stored value by identity with the query bool, so
on an item whose stored `completed` is the number 1 (normalized: `true`)
the code's `completed=true` listing returns nothing while the claim's
pipeline returns the item. -/
theorem C5_counterexample :
    get_todos (some true) none 1000 0 [⟨some 1, some "a", some "b", .jint 1⟩] = []
      ∧ get_todosSpec (some true) none 1000 0
          [⟨some 1, some "a", some "b", .jint 1⟩]
          = [⟨some 1, some "a", some "b", .jint 1⟩]
      ∧ get_todos (some true) none 1000 0 [⟨some 1, some "a", some "b", .jint 1⟩]
          ≠ get_todosSpec (some true) none 1000 0
            [⟨some 1, some "a", some "b", .jint 1⟩] := by
  decide

/-- C5 amended: the list operation keeps items whose raw stored
`completed` is exactly the boolean filter (non-boolean values never
match), then keeps items whose lowercased title or description contains
the lowercased term, then returns the slice
`items[offset : offset+limit]`, preserving order; an offset at or beyond
the filtered length yields the empty list, not an error. -/
theorem C5_list_pipeline :
    ∀ (c : Option Bool) (q : Option String) (lim off : Nat)
      (todos : List StoredItem),
    get_todos c q lim off todos = get_todosAmended c q lim off todos
      ∧ ((applyFilters c q todos).length ≤ off →
          get_todos c q lim off todos = []) := by
  intro c q lim off todos
  have hfa : applyFilters c q todos = applyFiltersAmended c q todos := by
    have hcomp : ∀ b : Bool, todos.filter (fun t => t.completed.isSameBool b)
        = todos.filter (fun t => t.completed == JVal.jbool b) := by
      intro b
      apply List.filter_congr
      intro t _
      exact isSameBool_eq_beq t.completed b
    have hempty : ∀ l : List StoredItem,
        l.filter (matchesQuery (lowerStr "")) = l := by
      intro l
      rw [lowerStr_empty]
      apply List.filter_eq_self.mpr
      intro t _
      simpa using matchesQuery_empty t
    cases c with
    | none =>
      cases q with
      | none => rfl
      | some s =>
        by_cases hs : s = ""
        · subst hs
          simp [applyFilters, applyFiltersAmended, hempty]
        · simp [applyFilters, applyFiltersAmended, hs]
    | some b =>
      cases q with
      | none => simpa [applyFilters, applyFiltersAmended] using hcomp b
      | some s =>
        by_cases hs : s = ""
        · subst hs
          simp [applyFilters, applyFiltersAmended, hempty, hcomp b]
        · simp [applyFilters, applyFiltersAmended, hs, hcomp b]
  constructor
  · rw [get_todos, get_todosAmended, List.take_drop, hfa]
  · intro hoff
    rw [get_todos, List.drop_eq_nil_of_le hoff, List.take_nil]

/-- C5 witness: an offset beyond the collection length yields the empty
list. -/
theorem C5_witness :
    get_todos none none 1000 5 [⟨some 1, some "a", some "b", .jbool false⟩]
      = [] :=
  (C5_list_pipeline none none 1000 5
    [⟨some 1, some "a", some "b", .jbool false⟩]).2 (by decide)

/-- C9 witness: patching `{completed: true}` onto
`{id:7, title:"Task", description:"desc", completed:false}` rewrites only
that item, flipping only `completed` (the spec's own example). -/
theorem C9_witness :
    ∃ pre t post,
      ([⟨some 7, some "Task", some "desc", .jbool false⟩] : List StoredItem)
          = pre ++ t :: post
        ∧ t.id = some 7
        ∧ ([⟨some 7, some "Task", some "desc", .jbool true⟩] : List StoredItem)
            = pre ++ (⟨some 7, some "Task", some "desc", .jbool true⟩ : StoredItem) :: post := by
  obtain ⟨pre, t, post, h1, _, h3, h4, _⟩ :=
    C9_patch_frame 7 ⟨none, none, some true⟩
      [⟨some 7, some "Task", some "desc", .jbool false⟩]
      [⟨some 7, some "Task", some "desc", .jbool true⟩]
      ⟨some 7, some "Task", some "desc", .jbool true⟩
      (by decide)
  exact ⟨pre, t, post, h1, h3, h4⟩

end TodoApp
